import Mathlib

/-!
Shallow embedding of the shot-sequencing engine of `threejs-blendertools`
(`src/module/src/utils/CameraShotsManager.ts`): the `ShotsManager` class and
its per-shot wrapper class `AnimatedCamera`.  Times and field-of-view values
are modelled as rationals.

The three.js `AnimationMixer` / `AnimationAction` pair that `AnimatedCamera`
drives is external library code (not part of this repository); its
`LoopOnce` / `clampWhenFinished` behaviour is modelled in
`AnimatedCamera.mixerUpdate` exactly as the wrapper relies on it: a zero
effective delta only re-applies the pose to the bound camera, a non-zero
delta advances `action.time` by `delta * timeScale`, and reaching the clip
duration clamps the time, pauses the action and fires the finish event once.

External callbacks (frame scripts, the completion callback passed to `play`,
the per-shot finish callback) are represented by emitted `Event` values;
the camera objects that three.js mutates are represented by their observable
pose (position, quaternion, fov).  Since the sequence array in the source
holds references into the `shots` array, the sequence is embedded as a list
of indices into `shots`, which preserves the aliasing of the source.
-/

/-- Observable state of a `PerspectiveCamera`: position, quaternion, fov. -/
structure Pose where
  px : ℚ
  py : ℚ
  pz : ℚ
  qx : ℚ
  qy : ℚ
  qz : ℚ
  qw : ℚ
  fov : ℚ
deriving DecidableEq

/-- An `AnimationClip`: a name, an intrinsic duration, and the pose the clip
produces when evaluated at a given local clip time.  -/
structure Clip where
  name : String
  duration : ℚ
  sample : ℚ → Pose

/-- The `AnimatedCamera` wrapper class together with the observable state of
the three.js `AnimationAction` it owns (`timeScale`, `time`, `paused`,
activated-or-not) and the pose of the camera bound to its mixer.
`finishWired` records whether `onFinishCallback` is set. -/
structure AnimatedCamera where
  clip : Clip
  timeScale : ℚ
  time : ℚ
  paused : Bool
  running : Bool
  finishWired : Bool
  cameraPose : Pose

/-- Construction of an `AnimatedCamera`: `clipAction` starts deactivated with
`timeScale = 1`; the constructor sets `LoopOnce` and `clampWhenFinished`.  -/
def AnimatedCamera.init (initialPose : Pose) (clip : Clip) : AnimatedCamera where
  clip := clip
  timeScale := 1
  time := 0
  paused := false
  running := false
  finishWired := false
  cameraPose := initialPose

/-- `getEffectiveDuration()`: `this.clip.duration / this.action.timeScale`. -/
def AnimatedCamera.getEffectiveDuration (ac : AnimatedCamera) : ℚ :=
  ac.clip.duration / ac.timeScale

/-- `setDuration(newDuration)`: `timeScale = originalDuration / newDuration`. -/
def AnimatedCamera.setDuration (ac : AnimatedCamera) (newDuration : ℚ) : AnimatedCamera :=
  { ac with timeScale := ac.clip.duration / newDuration }

/-- `play(onFinish)`: stores the finish callback, then `action.reset()`
(time 0, unpaused) and `action.play()` (activates the action). -/
def AnimatedCamera.play (ac : AnimatedCamera) : AnimatedCamera :=
  { ac with finishWired := true, time := 0, paused := false, running := true }

/-- `stop()`: three.js `AnimationAction.stop` deactivates the action and
calls `reset()`, which sets `time = 0` and `paused = false`. -/
def AnimatedCamera.stop (ac : AnimatedCamera) : AnimatedCamera :=
  { ac with running := false, time := 0, paused := false }

/-- Model of `mixer.update(delta)` for the single `LoopOnce`,
`clampWhenFinished` action owned by this wrapper.  A deactivated action is
not evaluated at all.  An active action advances by `delta * timeScale`
(zero when paused); a zero effective delta only re-applies the pose at the
current time (three.js returns early from time handling when the effective
delta is zero, so no finish event can fire).  Crossing the clip duration
clamps, pauses and reports the finish event. -/
def AnimatedCamera.mixerUpdate (ac : AnimatedCamera) (delta : ℚ) : AnimatedCamera × Bool :=
  if ac.running = false then (ac, false)
  else
    let dt := if ac.paused then 0 else delta * ac.timeScale
    if dt = 0 then ({ ac with cameraPose := ac.clip.sample ac.time }, false)
    else
      let t := ac.time + dt
      if ac.clip.duration ≤ t then
        ({ ac with time := ac.clip.duration, paused := true,
                   cameraPose := ac.clip.sample ac.clip.duration }, true)
      else ({ ac with time := t, cameraPose := ac.clip.sample t }, false)

/-- `scrubTo(time)`: `reset()`, `play()`, `paused = true`,
`time = clamp(time * timeScale, 0, clip.duration)`, then `mixer.update(0)`.
The `Bool` reports whether the finish event fired during the zero update. -/
def AnimatedCamera.scrubTo (ac : AnimatedCamera) (t : ℚ) : AnimatedCamera × Bool :=
  AnimatedCamera.mixerUpdate
    { ac with time := max 0 (min (t * ac.timeScale) ac.clip.duration),
              paused := true, running := true } 0

/-- A binding is advancing when its action is activated and not paused. -/
def AnimatedCamera.isAdvancing (ac : AnimatedCamera) : Bool :=
  ac.running && !ac.paused

/-- One entry of `frameScripts`: a trigger time on the virtual timeline and
the `called` flag (absent in the source until first set, i.e. false). -/
structure Script where
  time : ℚ
  called : Bool
deriving DecidableEq

/-- Observable callback invocations: firing of the frame script registered
at a given position of `frameScripts`, and the completion callback. -/
inductive Event where
  | scriptFired (idx : Nat)
  | completed
deriving DecidableEq

/-- In-place mutation of the element at one index of a list. -/
def updateAt {α : Type} : List α → Nat → (α → α) → List α
  | [], _, _ => []
  | a :: as, 0, f => f a :: as
  | a :: as, n + 1, f => a :: updateAt as n f

/-- The `ShotsManager` state.  `sequence` is a list of indices into `shots`
(the source stores references into `this.shots`); `targetCamera` is the pose
of the assigned target camera, when one is assigned;
`hasOnShotsCompleted` records whether `onShotsCompleted` is set. -/
structure ShotsManager where
  shots : List AnimatedCamera
  sequence : Option (List Nat)
  currentShotIndex : Int
  isPlaying : Bool
  targetCamera : Option Pose
  frameScripts : List Script
  playheadTime : ℚ
  hasOnShotsCompleted : Bool
  loop : Bool

/-- The constructor: for every camera, pair it with the clip of the same
name.  (The source uses a non-null assertion on the lookup; a camera with no
matching clip would fault there, so only matched pairs yield shots.) -/
def ShotsManager.init (cameras : List (String × Pose)) (clips : List Clip) : ShotsManager where
  shots := cameras.filterMap
    (fun c => (clips.find? (fun k => k.name == c.1)).map (AnimatedCamera.init c.2))
  sequence := none
  currentShotIndex := -1
  isPlaying := false
  targetCamera := none
  frameScripts := []
  playheadTime := 0
  hasOnShotsCompleted := false
  loop := false

/-- The lookup loop of `config`: for each name, the first shot whose clip
name matches is appended; names with no match are dropped. -/
def configSeq (shots : List AnimatedCamera) (names : List String) : List Nat :=
  names.filterMap (fun n => shots.findIdx? (fun sh => sh.clip.name == n))

/-- `config(shotsNames)`: rebuilds `this.sequence` wholesale. -/
def ShotsManager.config (s : ShotsManager) (names : List String) : ShotsManager :=
  { s with sequence := some (configSeq s.shots names) }

/-- `addFrameScript(frame, callback, baseFPS)`: pushes a script scheduled at
`frame / baseFPS` seconds. -/
def ShotsManager.addFrameScript (s : ShotsManager) (frame : ℚ) (baseFPS : ℚ) : ShotsManager :=
  { s with frameScripts := s.frameScripts ++ [{ time := frame / baseFPS, called := false }] }

/-- `setShotDuration(shotName, newDuration)`: finds the first shot whose
clip name matches; on failure returns false and changes nothing, on success
calls `setDuration` on that shot and returns true. -/
def ShotsManager.setShotDuration (s : ShotsManager) (shotName : String) (newDuration : ℚ) :
    Bool × ShotsManager :=
  match s.shots.findIdx? (fun sh => sh.clip.name == shotName) with
  | none => (false, s)
  | some i =>
    (true, { s with shots := updateAt s.shots i (fun sh => sh.setDuration newDuration) })

/-- `playCurrentShot()`: returns when there is no sequence or the index is
past its end, otherwise starts the shot at the current index with the finish
callback wired to `onShotFinished`.  (A negative index would fault in the
source by indexing past the array; it is modelled as a return and is
unreachable from the public operations.) -/
def ShotsManager.playCurrentShot (s : ShotsManager) : ShotsManager :=
  match s.sequence with
  | none => s
  | some seq =>
    if s.currentShotIndex < 0 ∨ (seq.length : Int) ≤ s.currentShotIndex then s
    else
      match seq.get? s.currentShotIndex.toNat with
      | none => s
      | some si => { s with shots := updateAt s.shots si AnimatedCamera.play }

/-- `play(onCompleted?)`: warns and returns when no sequence is configured
or it is empty; otherwise resets the playhead, stores the completion
callback, clears every script's `called` flag, sets `isPlaying`, sets the
index to 0 and starts the first shot. -/
def ShotsManager.play (s : ShotsManager) (hasCompletedCallback : Bool) : ShotsManager :=
  match s.sequence with
  | none => s
  | some seq =>
    if seq.length = 0 then s
    else
      ShotsManager.playCurrentShot
        { s with playheadTime := 0,
                 hasOnShotsCompleted := hasCompletedCallback,
                 frameScripts := s.frameScripts.map (fun sc => { sc with called := false }),
                 isPlaying := true,
                 currentShotIndex := 0 }

/-- `onShotFinished()`: increments the index; past the end it either wraps
to 0 (loop) or stops, invoking the completion callback when one is stored;
otherwise (and after a wrap) it starts the shot at the new index.  (The
source dereferences `this.sequence!`; the `none` arm is unreachable while
playing.) -/
def ShotsManager.onShotFinished (s : ShotsManager) : ShotsManager × List Event :=
  let s1 := { s with currentShotIndex := s.currentShotIndex + 1 }
  match s1.sequence with
  | none => (s1, [])
  | some seq =>
    if (seq.length : Int) ≤ s1.currentShotIndex then
      if s1.loop then
        (ShotsManager.playCurrentShot { s1 with currentShotIndex := 0 }, [])
      else
        ({ s1 with isPlaying := false },
         if s1.hasOnShotsCompleted then [Event.completed] else [])
    else (ShotsManager.playCurrentShot s1, [])

/-- The marking applied to each script by the frame-script scan of
`update`: a script strictly before the playhead and not yet called is
marked called. -/
def fireMark (t : ℚ) (sc : Script) : Script :=
  if sc.time < t ∧ sc.called = false then { sc with called := true } else sc

/-- The frame-script scan of `update`, walking `frameScripts` in order from
position `i`: returns the updated scripts and the positions fired, in
order. -/
def fireScriptsAux (t : ℚ) : Nat → List Script → List Script × List Nat
  | _, [] => ([], [])
  | i, sc :: rest =>
    let r := fireScriptsAux t (i + 1) rest
    if sc.time < t ∧ sc.called = false then ({ sc with called := true } :: r.1, i :: r.2)
    else (sc :: r.1, r.2)

/-- The target-camera mirroring at the top of `update`: when a target camera
is assigned, the pose of the current shot's camera is copied onto it. -/
def ShotsManager.syncPhase (s : ShotsManager) (seq : List Nat) : ShotsManager :=
  match s.targetCamera with
  | none => s
  | some _ =>
    match seq.get? s.currentShotIndex.toNat with
    | none => s
    | some si =>
      match s.shots.get? si with
      | none => s
      | some sh => { s with targetCamera := some sh.cameraPose }

/-- The shot-advance part of `update`: when the index is within the
sequence, the current shot's mixer is advanced by `delta`; a finish event
with a wired callback triggers `onShotFinished`. -/
def ShotsManager.shotPhase (s : ShotsManager) (seq : List Nat) (delta : ℚ) :
    ShotsManager × List Event :=
  if s.currentShotIndex < (seq.length : Int) then
    match seq.get? s.currentShotIndex.toNat with
    | none => (s, [])
    | some si =>
      match s.shots.get? si with
      | none => (s, [])
      | some sh =>
        let r := sh.mixerUpdate delta
        let s2 := { s with shots := updateAt s.shots si (fun _ => r.1) }
        if r.2 && sh.finishWired then ShotsManager.onShotFinished s2 else (s2, [])
  else (s, [])

/-- The frame-script part of `update`: marks and fires every script whose
trigger time is strictly below the playhead and whose flag is unset. -/
def ShotsManager.scriptPhase (s : ShotsManager) : ShotsManager × List Event :=
  let r := fireScriptsAux s.playheadTime 0 s.frameScripts
  ({ s with frameScripts := r.1 }, r.2.map Event.scriptFired)

/-- `update(delta)`: returns when not playing, no sequence, or the index is
negative; otherwise mirrors the pose, advances the playhead by `delta`,
advances the current shot (running the finish chain when it ends), then
scans the frame scripts against the new playhead. -/
def ShotsManager.update (s : ShotsManager) (delta : ℚ) : ShotsManager × List Event :=
  match s.sequence with
  | none => (s, [])
  | some seq =>
    if s.isPlaying = false ∨ s.currentShotIndex < 0 then (s, [])
    else
      let s1 := ShotsManager.syncPhase s seq
      let s2 := { s1 with playheadTime := s1.playheadTime + delta }
      let p := ShotsManager.shotPhase s2 seq delta
      let q := ShotsManager.scriptPhase p.1
      (q.1, p.2 ++ q.2)

/-- The effective duration of the shot at index `i` of `shots` (0 when the
index is out of range, which cannot happen for sequences built by
`config`). -/
def effDurAt (shots : List AnimatedCamera) (i : Nat) : ℚ :=
  ((shots.get? i).map AnimatedCamera.getEffectiveDuration).getD 0

/-- The stop-all loop at the top of `scrub`: stops every shot referenced by
the sequence. -/
def stopSeq (shots : List AnimatedCamera) : List Nat → List AnimatedCamera
  | [] => shots
  | si :: rest => stopSeq (updateAt shots si AnimatedCamera.stop) rest

/-- The search loop of `scrub`: walks the sequence accumulating effective
durations; the first shot whose interval `[acc, acc + duration)` contains
`t` is selected with local time `t - acc`.  `pos` counts the position within
the sequence. -/
def scrubWalk (shots : List AnimatedCamera) (t : ℚ) :
    List Nat → ℚ → Nat → Option (Nat × ℚ)
  | [], _, _ => none
  | si :: rest, acc, pos =>
    if acc ≤ t ∧ t < acc + effDurAt shots si then some (pos, t - acc)
    else scrubWalk shots t rest (acc + effDurAt shots si) (pos + 1)

/-- The full shot selection of `scrub`: the search loop, followed by the
fallback that selects the last shot at its full effective duration when no
interval contains `t`.  Returns the position within the sequence and the
local scrub time. -/
def scrubResolve (shots : List AnimatedCamera) (seq : List Nat) (t : ℚ) : Option (Nat × ℚ) :=
  match scrubWalk shots t seq 0 0 with
  | some r => some r
  | none =>
    match seq.getLast? with
    | none => none
    | some lastIdx => some (seq.length - 1, effDurAt shots lastIdx)

/-- `scrub(time, camera)`: returns when no sequence is configured or it is
empty; otherwise clears `isPlaying`, stops every shot of the sequence,
selects the shot and local time, seeks that shot there via `scrubTo`, and
copies that shot's camera pose onto the supplied camera (returned as the
second component).  The third component lists the callback invocations
caused by the call (a finish event during `scrubTo` would run the wired
finish chain). -/
def ShotsManager.scrub (s : ShotsManager) (t : ℚ) (cam : Pose) :
    ShotsManager × Pose × List Event :=
  match s.sequence with
  | none => (s, cam, [])
  | some seq =>
    if seq.length = 0 then (s, cam, [])
    else
      let s1 := { s with isPlaying := false, shots := stopSeq s.shots seq }
      match scrubResolve s1.shots seq t with
      | none => (s1, cam, [])
      | some (pos, localT) =>
        match seq.get? pos with
        | none => (s1, cam, [])
        | some si =>
          match s1.shots.get? si with
          | none => (s1, cam, [])
          | some sh =>
            let r := sh.scrubTo localT
            let s2 := { s1 with shots := updateAt s1.shots si (fun _ => r.1) }
            let fe := if r.2 && sh.finishWired then ShotsManager.onShotFinished s2 else (s2, [])
            (fe.1, r.1.cameraPose, fe.2)

/-! Basic lemmas about `updateAt` and list access. -/

theorem updateAt_length {α : Type} (l : List α) (i : Nat) (f : α → α) :
    (updateAt l i f).length = l.length := by
  induction l generalizing i with
  | nil => rfl
  | cons a as ih =>
    cases i with
    | zero => rfl
    | succ n => simpa [updateAt] using ih n

theorem updateAt_get? {α : Type} (l : List α) (i j : Nat) (f : α → α) :
    (updateAt l i f).get? j = if j = i then (l.get? j).map f else l.get? j := by
  induction l generalizing i j with
  | nil => simp [updateAt]
  | cons a as ih =>
    cases i with
    | zero =>
      cases j with
      | zero => simp [updateAt]
      | succ m => simp [updateAt]
    | succ n =>
      cases j with
      | zero => simp [updateAt]
      | succ m => simpa [updateAt] using ih n m

theorem get?_some_of_lt {α : Type} (l : List α) (n : Nat) (h : n < l.length) :
    ∃ a, l.get? n = some a :=
  ⟨l.get ⟨n, h⟩, List.get?_eq_get h⟩

/-! Field-preservation facts about the `AnimatedCamera` operations. -/

theorem stop_clip (ac : AnimatedCamera) : ac.stop.clip = ac.clip := rfl

theorem stop_timeScale (ac : AnimatedCamera) : ac.stop.timeScale = ac.timeScale := rfl

theorem stop_effDur (ac : AnimatedCamera) :
    ac.stop.getEffectiveDuration = ac.getEffectiveDuration := rfl

theorem stop_stop (ac : AnimatedCamera) : ac.stop.stop = ac.stop := rfl

theorem play_effDur (ac : AnimatedCamera) :
    (AnimatedCamera.play ac).getEffectiveDuration = ac.getEffectiveDuration := rfl

/-- Evaluation of `scrubTo`: the action ends activated, paused, positioned at
the clamped local clip time, with the clip's pose there applied to the
camera, and the finish event does not fire. -/
theorem scrubTo_eq (ac : AnimatedCamera) (t : ℚ) :
    ac.scrubTo t =
      ({ ac with time := max 0 (min (t * ac.timeScale) ac.clip.duration),
                 paused := true, running := true,
                 cameraPose := ac.clip.sample (max 0 (min (t * ac.timeScale) ac.clip.duration)) },
       false) := by
  simp [AnimatedCamera.scrubTo, AnimatedCamera.mixerUpdate]

theorem scrubTo_effDur (ac : AnimatedCamera) (t : ℚ) :
    (ac.scrubTo t).1.getEffectiveDuration = ac.getEffectiveDuration := by
  rw [scrubTo_eq]; rfl

theorem scrubTo_not_finished (ac : AnimatedCamera) (t : ℚ) : (ac.scrubTo t).2 = false := by
  rw [scrubTo_eq]

/-! Lemmas about `stopSeq` and `effDurAt`. -/

theorem stopSeq_length (shots : List AnimatedCamera) (seq : List Nat) :
    (stopSeq shots seq).length = shots.length := by
  induction seq generalizing shots with
  | nil => rfl
  | cons si rest ih => simp [stopSeq, ih, updateAt_length]

theorem stopSeq_get? (shots : List AnimatedCamera) (seq : List Nat) (i : Nat) :
    (stopSeq shots seq).get? i =
      if i ∈ seq then (shots.get? i).map AnimatedCamera.stop else shots.get? i := by
  induction seq generalizing shots with
  | nil => simp [stopSeq]
  | cons si rest ih =>
    show (stopSeq (updateAt shots si AnimatedCamera.stop) rest).get? i = _
    rw [ih, updateAt_get?]
    by_cases he : i = si <;> by_cases hm : i ∈ rest <;>
      cases hg : shots.get? i <;>
        simp [he, hm, hg, stop_stop]

theorem effDurAt_congr (shots shots' : List AnimatedCamera) (i : Nat)
    (h : ∀ a, shots'.get? i = some a → ∃ b, shots.get? i = some b ∧
          a.getEffectiveDuration = b.getEffectiveDuration)
    (h2 : shots'.get? i = none → shots.get? i = none) :
    effDurAt shots' i = effDurAt shots i := by
  unfold effDurAt
  cases hg : shots'.get? i with
  | none => rw [h2 hg]
  | some a =>
    obtain ⟨b, hb, he⟩ := h a hg
    rw [hb]
    simpa using he

theorem effDurAt_stopSeq (shots : List AnimatedCamera) (seq : List Nat) (i : Nat) :
    effDurAt (stopSeq shots seq) i = effDurAt shots i := by
  unfold effDurAt
  rw [stopSeq_get?]
  by_cases hm : i ∈ seq <;> cases hg : shots.get? i <;> simp [hm, hg, stop_effDur]

theorem effDurAt_updateAt (shots : List AnimatedCamera) (j i : Nat)
    (f : AnimatedCamera → AnimatedCamera)
    (hf : ∀ a, (f a).getEffectiveDuration = a.getEffectiveDuration) :
    effDurAt (updateAt shots j f) i = effDurAt shots i := by
  unfold effDurAt
  rw [updateAt_get?]
  by_cases he : i = j <;> cases hg : shots.get? i <;> simp [he, hg, hf]

/-! Lemmas about the frame-script scan. -/

theorem fireScriptsAux_fst (t : ℚ) (i : Nat) (l : List Script) :
    (fireScriptsAux t i l).1 = l.map (fireMark t) := by
  induction l generalizing i with
  | nil => rfl
  | cons sc rest ih =>
    by_cases h : sc.time < t ∧ sc.called = false <;>
      simp [fireScriptsAux, fireMark, h, ih]

theorem fireScriptsAux_mem (t : ℚ) (i k : Nat) (l : List Script) :
    k ∈ (fireScriptsAux t i l).2 ↔
      ∃ j sc, l.get? j = some sc ∧ k = i + j ∧ sc.time < t ∧ sc.called = false := by
  induction l generalizing i with
  | nil => simp [fireScriptsAux]
  | cons sc rest ih =>
    by_cases h : sc.time < t ∧ sc.called = false
    · simp only [fireScriptsAux, if_pos h, List.mem_cons]
      constructor
      · rintro (rfl | hk)
        · exact ⟨0, sc, rfl, by omega, h.1, h.2⟩
        · obtain ⟨j, sc', hg, hk, h1, h2⟩ := (ih (i + 1)).mp hk
          exact ⟨j + 1, sc', by simpa using hg, by omega, h1, h2⟩
      · rintro ⟨j, sc', hg, hk, h1, h2⟩
        cases j with
        | zero => left; omega
        | succ m =>
          right
          exact (ih (i + 1)).mpr ⟨m, sc', by simpa using hg, by omega, h1, h2⟩
    · simp only [fireScriptsAux, if_neg h]
      rw [ih (i + 1)]
      constructor
      · rintro ⟨j, sc', hg, hk, h1, h2⟩
        exact ⟨j + 1, sc', by simpa using hg, by omega, h1, h2⟩
      · rintro ⟨j, sc', hg, hk, h1, h2⟩
        cases j with
        | zero =>
          exfalso
          simp only [List.get?] at hg
          cases hg
          exact h ⟨h1, h2⟩
        | succ m => exact ⟨m, sc', by simpa using hg, by omega, h1, h2⟩

theorem fireScriptsAux_lb (t : ℚ) (i : Nat) (l : List Script) :
    ∀ k ∈ (fireScriptsAux t i l).2, i ≤ k := by
  intro k hk
  rw [fireScriptsAux_mem] at hk
  obtain ⟨j, sc, _, hk, _, _⟩ := hk
  omega

theorem fireScriptsAux_pairwise (t : ℚ) (i : Nat) (l : List Script) :
    List.Pairwise (fun a b => a < b) (fireScriptsAux t i l).2 := by
  induction l generalizing i with
  | nil => simp [fireScriptsAux]
  | cons sc rest ih =>
    by_cases h : sc.time < t ∧ sc.called = false
    · simp only [fireScriptsAux, if_pos h]
      refine List.pairwise_cons.mpr ⟨?_, ih (i + 1)⟩
      intro b hb
      have := fireScriptsAux_lb t (i + 1) rest b hb
      omega
    · simp only [fireScriptsAux, if_neg h]
      exact ih (i + 1)

/-! Shape lemmas: which fields each internal operation can change. -/

theorem playCurrentShot_shape (s : ShotsManager) :
    ∃ l, ShotsManager.playCurrentShot s = { s with shots := l } := by
  obtain ⟨sh0, sq0, ci0, ip0, tc0, fs0, ph0, hc0, lp0⟩ := s
  cases sq0 with
  | none => exact ⟨sh0, rfl⟩
  | some seq =>
    unfold ShotsManager.playCurrentShot
    dsimp only
    split
    · exact ⟨sh0, rfl⟩
    · split
      · exact ⟨sh0, rfl⟩
      · exact ⟨_, rfl⟩

theorem onShotFinished_shape (s : ShotsManager) :
    ∃ l i p, (ShotsManager.onShotFinished s).1 =
        { s with shots := l, currentShotIndex := i, isPlaying := p } ∧
      ((ShotsManager.onShotFinished s).2 = [] ∨
        (ShotsManager.onShotFinished s).2 = [Event.completed]) := by
  obtain ⟨sh0, sq0, ci0, ip0, tc0, fs0, ph0, hc0, lp0⟩ := s
  cases sq0 with
  | none => exact ⟨sh0, ci0 + 1, ip0, rfl, Or.inl rfl⟩
  | some seq =>
    unfold ShotsManager.onShotFinished
    dsimp only
    split
    · split
      · obtain ⟨l, hl⟩ := playCurrentShot_shape ⟨sh0, some seq, 0, ip0, tc0, fs0, ph0, hc0, lp0⟩
        exact ⟨l, 0, ip0, by rw [hl], Or.inl rfl⟩
      · refine ⟨sh0, ci0 + 1, false, rfl, ?_⟩
        dsimp only
        split
        · exact Or.inr rfl
        · exact Or.inl rfl
    · obtain ⟨l, hl⟩ := playCurrentShot_shape ⟨sh0, some seq, ci0 + 1, ip0, tc0, fs0, ph0, hc0, lp0⟩
      exact ⟨l, ci0 + 1, ip0, by rw [hl], Or.inl rfl⟩

theorem onShotFinished_frameScripts (s : ShotsManager) :
    (ShotsManager.onShotFinished s).1.frameScripts = s.frameScripts := by
  obtain ⟨l, i, p, h, _⟩ := onShotFinished_shape s
  rw [h]

theorem onShotFinished_no_scriptFired (s : ShotsManager) (idx : Nat) :
    Event.scriptFired idx ∉ (ShotsManager.onShotFinished s).2 := by
  obtain ⟨_, _, _, _, h | h⟩ := onShotFinished_shape s <;> simp [h]

/-! Evaluation lemmas for the three phases of `update`. -/

theorem syncPhase_eq (s : ShotsManager) (seq : List Nat) (n si : Nat) (sh : AnimatedCamera)
    (h3 : s.currentShotIndex = (n : Int)) (h4 : seq.get? n = some si)
    (h5 : s.shots.get? si = some sh) :
    ShotsManager.syncPhase s seq =
      { s with targetCamera := s.targetCamera.map (fun _ => sh.cameraPose) } := by
  obtain ⟨sh0, sq0, ci0, ip0, tc0, fs0, ph0, hc0, lp0⟩ := s
  dsimp only at h3 h5 ⊢
  subst h3
  cases tc0 with
  | none => rfl
  | some p =>
    simp only [ShotsManager.syncPhase, Int.toNat_natCast, h4, h5]
    rfl

theorem shotPhase_eq (s : ShotsManager) (seq : List Nat) (delta : ℚ) (n si : Nat)
    (sh : AnimatedCamera)
    (h3 : s.currentShotIndex = (n : Int)) (h4 : seq.get? n = some si)
    (h5 : s.shots.get? si = some sh) (h6 : (sh.mixerUpdate delta).2 = false) :
    ShotsManager.shotPhase s seq delta =
      ({ s with shots := updateAt s.shots si (fun _ => (sh.mixerUpdate delta).1) }, []) := by
  have hn : n < seq.length := by
    by_contra hlt
    rw [List.get?_eq_none.mpr (by omega)] at h4
    cases h4
  obtain ⟨sh0, sq0, ci0, ip0, tc0, fs0, ph0, hc0, lp0⟩ := s
  dsimp only at h3 h5 ⊢
  subst h3
  unfold ShotsManager.shotPhase
  dsimp only
  rw [if_pos (show ((n : Int) < (seq.length : Int)) by exact_mod_cast hn)]
  simp only [Int.toNat_natCast, h4, h5]
  simp [h6]

theorem update_eq (s : ShotsManager) (delta : ℚ) (seq : List Nat) (n si : Nat)
    (sh : AnimatedCamera)
    (h1 : s.isPlaying = true) (h2 : s.sequence = some seq)
    (h3 : s.currentShotIndex = (n : Int)) (h4 : seq.get? n = some si)
    (h5 : s.shots.get? si = some sh) (h6 : (sh.mixerUpdate delta).2 = false) :
    ShotsManager.update s delta =
      ({ s with targetCamera := s.targetCamera.map (fun _ => sh.cameraPose),
                playheadTime := s.playheadTime + delta,
                shots := updateAt s.shots si (fun _ => (sh.mixerUpdate delta).1),
                frameScripts := (fireScriptsAux (s.playheadTime + delta) 0 s.frameScripts).1 },
       (fireScriptsAux (s.playheadTime + delta) 0 s.frameScripts).2.map Event.scriptFired) := by
  obtain ⟨sh0, sq0, ci0, ip0, tc0, fs0, ph0, hc0, lp0⟩ := s
  dsimp only at h1 h2 h3 h5 ⊢
  subst h1 h2 h3
  unfold ShotsManager.update
  dsimp only
  rw [if_neg (by rintro (hx | hx); exact Bool.noConfusion hx; omega)]
  rw [syncPhase_eq ⟨sh0, some seq, (n : Int), true, tc0, fs0, ph0, hc0, lp0⟩ seq n si sh rfl h4 h5]
  dsimp only
  rw [shotPhase_eq ⟨sh0, some seq, (n : Int), true, Option.map (fun _ => sh.cameraPose) tc0,
        fs0, ph0 + delta, hc0, lp0⟩ seq delta n si sh rfl h4 h5 h6]
  dsimp only [ShotsManager.scriptPhase]
  simp

/-! Arithmetic lemmas about the search loop of `scrub`. -/

theorem sum_map_nonneg (shots : List AnimatedCamera) (l : List Nat)
    (h : ∀ i ∈ l, 0 ≤ effDurAt shots i) : 0 ≤ (l.map (effDurAt shots)).sum := by
  apply List.sum_nonneg
  intro x hx
  obtain ⟨i, hi, rfl⟩ := List.mem_map.mp hx
  exact h i hi

theorem scrubWalk_found (shots : List AnimatedCamera) (t : ℚ) (seq : List Nat) :
    ∀ (k si : Nat) (acc : ℚ) (pos : Nat),
      (∀ i ∈ seq, 0 < effDurAt shots i) →
      seq.get? k = some si →
      acc + ((seq.take k).map (effDurAt shots)).sum ≤ t →
      t < acc + ((seq.take k).map (effDurAt shots)).sum + effDurAt shots si →
      scrubWalk shots t seq acc pos =
        some (pos + k, t - (acc + ((seq.take k).map (effDurAt shots)).sum)) := by
  induction seq with
  | nil => intro k si acc pos _ hg _ _; simp at hg
  | cons s0 rest ih =>
    intro k si acc pos hpos hg hlo hhi
    cases k with
    | zero =>
      have hsi : s0 = si := by simpa using hg
      subst hsi
      simp only [List.take_zero, List.map_nil, List.sum_nil, add_zero] at hlo hhi ⊢
      unfold scrubWalk
      rw [if_pos ⟨hlo, hhi⟩]
    | succ m =>
      have hd0 : 0 < effDurAt shots s0 := hpos s0 (List.mem_cons_self s0 rest)
      have hsum : 0 ≤ ((rest.take m).map (effDurAt shots)).sum := by
        apply sum_map_nonneg
        intro i hi
        exact le_of_lt (hpos i (List.mem_cons_of_mem s0 (List.take_subset m rest hi)))
      simp only [List.take_succ_cons, List.map_cons, List.sum_cons] at hlo hhi ⊢
      unfold scrubWalk
      rw [if_neg (by rintro ⟨hx, hy⟩; linarith)]
      rw [ih m si (acc + effDurAt shots s0) (pos + 1)
        (fun i hi => hpos i (List.mem_cons_of_mem s0 hi)) (by simpa using hg)
        (by linarith) (by linarith)]
      have hp1 : pos + 1 + m = pos + (m + 1) := by omega
      have hp2 : acc + effDurAt shots s0 + (List.map (effDurAt shots) (List.take m rest)).sum
          = acc + (effDurAt shots s0 + (List.map (effDurAt shots) (List.take m rest)).sum) := by
        ring
      rw [hp1, hp2]

theorem scrubWalk_none_of_ge (shots : List AnimatedCamera) (t : ℚ) (seq : List Nat) :
    ∀ (acc : ℚ) (pos : Nat),
      (∀ i ∈ seq, 0 ≤ effDurAt shots i) →
      acc + (seq.map (effDurAt shots)).sum ≤ t →
      scrubWalk shots t seq acc pos = none := by
  induction seq with
  | nil => intro acc pos _ _; rfl
  | cons s0 rest ih =>
    intro acc pos hpos hle
    simp only [List.map_cons, List.sum_cons] at hle
    have hsum : 0 ≤ (rest.map (effDurAt shots)).sum :=
      sum_map_nonneg shots rest (fun i hi => hpos i (List.mem_cons_of_mem s0 hi))
    unfold scrubWalk
    rw [if_neg (by rintro ⟨hx, hy⟩; linarith)]
    exact ih (acc + effDurAt shots s0) (pos + 1)
      (fun i hi => hpos i (List.mem_cons_of_mem s0 hi)) (by linarith)

theorem scrubWalk_none_of_lt (shots : List AnimatedCamera) (t : ℚ) (seq : List Nat) :
    ∀ (acc : ℚ) (pos : Nat),
      (∀ i ∈ seq, 0 ≤ effDurAt shots i) → t < acc →
      scrubWalk shots t seq acc pos = none := by
  induction seq with
  | nil => intro _ _ _ _; rfl
  | cons s0 rest ih =>
    intro acc pos hpos hlt
    have hd0 : 0 ≤ effDurAt shots s0 := hpos s0 (List.mem_cons_self s0 rest)
    unfold scrubWalk
    rw [if_neg (by rintro ⟨hx, _⟩; linarith)]
    exact ih (acc + effDurAt shots s0) (pos + 1)
      (fun i hi => hpos i (List.mem_cons_of_mem s0 hi)) (by linarith)

theorem scrubWalk_pos_lt (shots : List AnimatedCamera) (t : ℚ) (seq : List Nat) :
    ∀ (acc : ℚ) (pos k : Nat) (lt : ℚ),
      scrubWalk shots t seq acc pos = some (k, lt) → pos ≤ k ∧ k < pos + seq.length := by
  induction seq with
  | nil => intro acc pos k lt h; cases h
  | cons s0 rest ih =>
    intro acc pos k lt h
    unfold scrubWalk at h
    split at h
    · simp only [Option.some.injEq, Prod.mk.injEq] at h
      obtain ⟨rfl, rfl⟩ := h
      refine ⟨Nat.le_refl pos, ?_⟩
      simp only [List.length_cons]
      omega
    · have hb := ih (acc + effDurAt shots s0) (pos + 1) k lt h
      simp only [List.length_cons]
      omega

theorem getLast?_some_of_ne_nil {α : Type} (l : List α) (h : l ≠ []) :
    ∃ a, l.getLast? = some a ∧ a ∈ l :=
  ⟨l.getLast h, List.getLast?_eq_getLast l h, List.getLast_mem h⟩

theorem scrubResolve_some (shots : List AnimatedCamera) (seq : List Nat) (t : ℚ)
    (hne : seq ≠ []) :
    ∃ pos lt, scrubResolve shots seq t = some (pos, lt) ∧ pos < seq.length := by
  unfold scrubResolve
  cases hw : scrubWalk shots t seq 0 0 with
  | some r =>
    obtain ⟨k, l⟩ := r
    have hb := scrubWalk_pos_lt shots t seq 0 0 k l hw
    exact ⟨k, l, rfl, by omega⟩
  | none =>
    obtain ⟨a, ha, _⟩ := getLast?_some_of_ne_nil seq hne
    rw [ha]
    have hlen : 0 < seq.length := List.length_pos.mpr hne
    exact ⟨seq.length - 1, effDurAt shots a, rfl, by omega⟩

theorem scrubWalk_congr (shots shots' : List AnimatedCamera) (t : ℚ) :
    ∀ (seq : List Nat) (acc : ℚ) (pos : Nat),
      (∀ i ∈ seq, effDurAt shots' i = effDurAt shots i) →
      scrubWalk shots' t seq acc pos = scrubWalk shots t seq acc pos := by
  intro seq
  induction seq with
  | nil => intro _ _ _; rfl
  | cons s0 rest ih =>
    intro acc pos h
    unfold scrubWalk
    rw [h s0 (List.mem_cons_self s0 rest)]
    split
    · rfl
    · exact ih _ _ (fun i hi => h i (List.mem_cons_of_mem s0 hi))

theorem scrubResolve_congr (shots shots' : List AnimatedCamera) (seq : List Nat) (t : ℚ)
    (h : ∀ i ∈ seq, effDurAt shots' i = effDurAt shots i) :
    scrubResolve shots' seq t = scrubResolve shots seq t := by
  unfold scrubResolve
  rw [scrubWalk_congr shots shots' t seq 0 0 h]
  cases hw : scrubWalk shots t seq 0 0 with
  | some r => rfl
  | none =>
    cases hl : seq.getLast? with
    | none => rfl
    | some a =>
      have ha : a ∈ seq := by
        have := List.getLast?_eq_getLast seq (by rintro rfl; simp at hl)
        rw [this] at hl
        have hx := Option.some.inj hl
        rw [← hx]
        exact List.getLast_mem _
      dsimp only
      rw [h a ha]

/-- Evaluation of `scrub` in the regular case: a configured, non-empty
sequence whose resolution and lookups succeed. -/
theorem scrub_eq (s : ShotsManager) (seq : List Nat) (t : ℚ) (cam : Pose)
    (pos si : Nat) (lt : ℚ) (sh : AnimatedCamera)
    (h2 : s.sequence = some seq) (hne : seq ≠ [])
    (hr : scrubResolve (stopSeq s.shots seq) seq t = some (pos, lt))
    (hg : seq.get? pos = some si)
    (hsh : (stopSeq s.shots seq).get? si = some sh) :
    ShotsManager.scrub s t cam =
      ({ s with isPlaying := false,
                shots := updateAt (stopSeq s.shots seq) si (fun _ => (sh.scrubTo lt).1) },
       (sh.scrubTo lt).1.cameraPose, []) := by
  obtain ⟨sh0, sq0, ci0, ip0, tc0, fs0, ph0, hc0, lp0⟩ := s
  dsimp only at h2 hr hsh ⊢
  subst h2
  unfold ShotsManager.scrub
  dsimp only
  rw [if_neg (fun hx => hne (List.length_eq_zero.mp hx))]
  simp only [hr, hg, hsh, scrubTo_not_finished, Bool.false_and, if_neg]
  simp [scrubTo_not_finished]

/-! Concrete fixtures used by the witness theorems. -/

def demoPoseA : Pose := ⟨1, 0, 0, 0, 0, 0, 1, 50⟩

def demoPoseB : Pose := ⟨2, 5, 0, 0, 0, 0, 1, 35⟩

def demoClipA : Clip := ⟨"A", 2, fun _ => demoPoseA⟩

def demoClipB : Clip := ⟨"B", 3, fun _ => demoPoseB⟩

def demoClipC : Clip := ⟨"C", 10, fun _ => demoPoseA⟩

/-- A manager over two camera/clip pairs, no sequence configured yet. -/
def demoManager : ShotsManager :=
  ShotsManager.init [("A", demoPoseA), ("B", demoPoseB)] [demoClipA, demoClipB]

/-- The two-shot manager with the sequence `["A", "B"]` configured
(effective durations 2 and 3 seconds). -/
def demoScrubManager : ShotsManager := demoManager.config ["A", "B"]

theorem demo_effDur_0 : effDurAt demoScrubManager.shots 0 = 2 := by
  have h : demoScrubManager.shots = [AnimatedCamera.init demoPoseA demoClipA,
      AnimatedCamera.init demoPoseB demoClipB] := rfl
  rw [h]
  norm_num [effDurAt, List.get?, AnimatedCamera.getEffectiveDuration, AnimatedCamera.init,
    demoClipA]

theorem demo_effDur_1 : effDurAt demoScrubManager.shots 1 = 3 := by
  have h : demoScrubManager.shots = [AnimatedCamera.init demoPoseA demoClipA,
      AnimatedCamera.init demoPoseB demoClipB] := rfl
  rw [h]
  norm_num [effDurAt, List.get?, AnimatedCamera.getEffectiveDuration, AnimatedCamera.init,
    demoClipB]

/-- C1: for every configured sequence with positive effective durations,
the selection performed by `scrub` (`scrubResolve`, the cumulative
effective-duration walk that `ShotsManager.scrub` runs over the sequence)
picks the shot whose half-open interval `[start, start + effDur)` contains
`timelineSeconds`, at local time `timelineSeconds - start`; and a time at or
beyond the total duration selects the last shot at its full effective
duration. -/
theorem scrub_selects_shot (s : ShotsManager) (seq : List Nat) (t : ℚ)
    (h2 : s.sequence = some seq)
    (hpos : ∀ i ∈ seq, 0 < effDurAt s.shots i) :
    (∀ k si, seq.get? k = some si →
       ((seq.take k).map (effDurAt s.shots)).sum ≤ t →
       t < ((seq.take k).map (effDurAt s.shots)).sum + effDurAt s.shots si →
       scrubResolve s.shots seq t =
         some (k, t - ((seq.take k).map (effDurAt s.shots)).sum)) ∧
    (∀ lastIdx, seq.getLast? = some lastIdx →
       (seq.map (effDurAt s.shots)).sum ≤ t →
       scrubResolve s.shots seq t = some (seq.length - 1, effDurAt s.shots lastIdx)) := by
  constructor
  · intro k si hg hlo hhi
    unfold scrubResolve
    rw [scrubWalk_found s.shots t seq k si 0 0 hpos hg (by linarith) (by linarith)]
    simp
  · intro lastIdx hl hge
    unfold scrubResolve
    rw [scrubWalk_none_of_ge s.shots t seq 0 0
      (fun i hi => le_of_lt (hpos i hi)) (by linarith), hl]

/-- Witness for C1: in the two-shot sequence with effective durations 2 and
3, `scrub` at 2.5 selects shot 2 (position 1) at local time 0.5, and at 10
selects shot 2 at its end, local time 3. -/
theorem scrub_selects_shot_witness :
    scrubResolve demoScrubManager.shots [0, 1] (5/2) = some (1, 1/2) ∧
    scrubResolve demoScrubManager.shots [0, 1] 10 = some (1, 3) := by
  have hpos : ∀ i ∈ [0, 1], 0 < effDurAt demoScrubManager.shots i := by
    intro i hi
    fin_cases hi <;> norm_num [demo_effDur_0, demo_effDur_1]
  constructor
  · rw [(scrub_selects_shot demoScrubManager [0, 1] (5/2) rfl hpos).1 1 1 rfl
      (by norm_num [demo_effDur_0]) (by norm_num [demo_effDur_0, demo_effDur_1])]
    norm_num [demo_effDur_0]
  · rw [(scrub_selects_shot demoScrubManager [0, 1] 10 rfl hpos).2 1 rfl
      (by norm_num [demo_effDur_0, demo_effDur_1])]
    norm_num [demo_effDur_1]

/-- C10: a negative timeline time matches no shot interval (all interval
starts are nonnegative), so `scrub`'s selection falls through to the
clamp-to-end fallback: the last shot of the sequence at its full effective
duration, not the first shot at time 0. -/
theorem scrub_negative_selects_last (s : ShotsManager) (seq : List Nat) (t : ℚ)
    (lastIdx : Nat)
    (h2 : s.sequence = some seq) (hneg : t < 0)
    (hnn : ∀ i ∈ seq, 0 ≤ effDurAt s.shots i)
    (hl : seq.getLast? = some lastIdx) :
    scrubResolve s.shots seq t = some (seq.length - 1, effDurAt s.shots lastIdx) := by
  unfold scrubResolve
  rw [scrubWalk_none_of_lt s.shots t seq 0 0 hnn hneg, hl]

/-- Witness for C10: scrubbing the two-shot sequence at -1 selects the last
shot (position 1) at its full effective duration 3. -/
theorem scrub_negative_selects_last_witness :
    scrubResolve demoScrubManager.shots [0, 1] (-1) = some (1, 3) := by
  have hnn : ∀ i ∈ [0, 1], 0 ≤ effDurAt demoScrubManager.shots i := by
    intro i hi
    fin_cases hi <;> norm_num [demo_effDur_0, demo_effDur_1]
  rw [scrub_negative_selects_last demoScrubManager [0, 1] (-1) 1 rfl (by norm_num) hnn rfl]
  norm_num [demo_effDur_1]

/-- C9: `play` and `scrub` on a manager with no configured sequence, or an
empty configured sequence, change nothing at all: the state is returned
unchanged, the supplied camera pose is untouched, and no callback fires. -/
theorem empty_sequence_noop (s : ShotsManager) (b : Bool) (t : ℚ) (cam : Pose)
    (h : s.sequence = none ∨ s.sequence = some []) :
    ShotsManager.play s b = s ∧ ShotsManager.scrub s t cam = (s, cam, []) := by
  obtain ⟨sh0, sq0, ci0, ip0, tc0, fs0, ph0, hc0, lp0⟩ := s
  dsimp only at h
  rcases h with h | h <;> subst h <;> exact ⟨rfl, rfl⟩

/-- Witness for C9: the freshly constructed manager has no sequence and
both operations are exact no-ops on it. -/
theorem empty_sequence_noop_witness :
    (demoManager.sequence = none ∨ demoManager.sequence = some []) ∧
    ShotsManager.play demoManager true = demoManager ∧
    ShotsManager.scrub demoManager 1 demoPoseA = (demoManager, demoPoseA, []) :=
  ⟨Or.inl rfl,
   (empty_sequence_noop demoManager true 1 demoPoseA (Or.inl rfl)).1,
   (empty_sequence_noop demoManager true 1 demoPoseA (Or.inl rfl)).2⟩

/-- C7: `setShotDuration` on a name matching a known clip (with positive
intrinsic duration) and a positive target returns true, sets that binding's
time-scale to intrinsic/target so that its effective duration round-trips to
the target, and changes no other binding; on an unknown name it returns
false and changes nothing. -/
theorem setShotDuration_spec (s : ShotsManager) (shotName : String) (target : ℚ) :
    (∀ i sh, s.shots.findIdx? (fun a => a.clip.name == shotName) = some i →
       s.shots.get? i = some sh → 0 < sh.clip.duration → 0 < target →
       (s.setShotDuration shotName target).1 = true ∧
       (s.setShotDuration shotName target).2.shots.get? i =
         some { sh with timeScale := sh.clip.duration / target } ∧
       AnimatedCamera.getEffectiveDuration
         { sh with timeScale := sh.clip.duration / target } = target ∧
       (∀ j, j ≠ i →
         (s.setShotDuration shotName target).2.shots.get? j = s.shots.get? j)) ∧
    (s.shots.findIdx? (fun a => a.clip.name == shotName) = none →
       s.setShotDuration shotName target = (false, s)) := by
  constructor
  · intro i sh hf hg hd ht
    unfold ShotsManager.setShotDuration
    rw [hf]
    refine ⟨rfl, ?_, ?_, ?_⟩
    · dsimp only
      rw [updateAt_get?, if_pos rfl, hg]
      rfl
    · unfold AnimatedCamera.getEffectiveDuration
      dsimp only
      rw [div_div_eq_mul_div]
      exact mul_div_cancel_left₀ target (ne_of_gt hd)
    · intro j hj
      dsimp only
      rw [updateAt_get?, if_neg hj]
  · intro hf
    unfold ShotsManager.setShotDuration
    rw [hf]

/-- Witness for C7: retargeting the 3-second clip "B" to 6 seconds succeeds
with time-scale 0.5 and effective duration 6; an unknown name fails and
leaves the manager unchanged. -/
theorem setShotDuration_spec_witness :
    (demoScrubManager.setShotDuration "B" 6).1 = true ∧
    ((demoScrubManager.setShotDuration "B" 6).2.shots.get? 1).map
      (fun a => a.timeScale) = some (1/2) ∧
    ((demoScrubManager.setShotDuration "B" 6).2.shots.get? 1).map
      AnimatedCamera.getEffectiveDuration = some 6 ∧
    demoScrubManager.setShotDuration "X" 6 = (false, demoScrubManager) := by
  have h := (setShotDuration_spec demoScrubManager "B" 6).1 1
    (AnimatedCamera.init demoPoseB demoClipB) rfl rfl
    (by norm_num [AnimatedCamera.init, demoClipB]) (by norm_num)
  refine ⟨h.1, ?_, ?_, (setShotDuration_spec demoScrubManager "X" 6).2 rfl⟩
  · rw [h.2.1]
    norm_num [AnimatedCamera.init, demoClipB]
  · rw [h.2.1]
    simpa using h.2.2.1

/-- Evaluation of `play` on a configured non-empty sequence (helper). -/
theorem play_eq (s : ShotsManager) (seq : List Nat) (si0 : Nat) (b : Bool)
    (h2 : s.sequence = some seq) (hne : seq ≠ []) (hg : seq.get? 0 = some si0) :
    ShotsManager.play s b =
      { s with playheadTime := 0,
               hasOnShotsCompleted := b,
               frameScripts := s.frameScripts.map (fun sc => { sc with called := false }),
               isPlaying := true,
               currentShotIndex := 0,
               shots := updateAt s.shots si0 AnimatedCamera.play } := by
  obtain ⟨sh0, sq0, ci0, ip0, tc0, fs0, ph0, hc0, lp0⟩ := s
  dsimp only at h2 ⊢
  subst h2
  unfold ShotsManager.play
  dsimp only
  rw [if_neg (fun hx => hne (List.length_eq_zero.mp hx))]
  unfold ShotsManager.playCurrentShot
  dsimp only
  rw [if_neg (by
    rintro (hx | hx)
    · omega
    · have := List.length_pos.mpr hne
      omega)]
  simp only [Int.toNat_zero, hg]

/-- C4: `play` on a configured non-empty sequence resets the virtual
playhead to 0, clears every scheduled callback's fired-flag, stores the
completion callback, sets playing, sets the index to 0, and starts the
first binding of the sequence: finish handler wired, advancing, local time
0. -/
theorem play_spec (s : ShotsManager) (seq : List Nat) (si0 : Nat) (sh0 : AnimatedCamera)
    (b : Bool)
    (h2 : s.sequence = some seq) (hne : seq ≠ [])
    (hg : seq.get? 0 = some si0) (hs : s.shots.get? si0 = some sh0) :
    (s.play b).playheadTime = 0 ∧
    (∀ sc ∈ (s.play b).frameScripts, sc.called = false) ∧
    (s.play b).isPlaying = true ∧
    (s.play b).currentShotIndex = 0 ∧
    (s.play b).hasOnShotsCompleted = b ∧
    (s.play b).shots.get? si0 = some (AnimatedCamera.play sh0) ∧
    (AnimatedCamera.play sh0).finishWired = true ∧
    (AnimatedCamera.play sh0).isAdvancing = true ∧
    (AnimatedCamera.play sh0).time = 0 := by
  rw [play_eq s seq si0 b h2 hne hg]
  refine ⟨rfl, ?_, rfl, rfl, rfl, ?_, rfl, rfl, rfl⟩
  · intro sc hsc
    obtain ⟨x, _, rfl⟩ := List.mem_map.mp hsc
    rfl
  · dsimp only
    rw [updateAt_get?, if_pos rfl, hs]
    rfl

/-- Witness for C4: playing the configured two-shot manager. -/
theorem play_spec_witness :
    (demoScrubManager.play true).playheadTime = 0 ∧
    (demoScrubManager.play true).isPlaying = true ∧
    (demoScrubManager.play true).currentShotIndex = 0 ∧
    ((demoScrubManager.play true).shots.get? 0).map
      (fun a => (a.finishWired, a.isAdvancing, a.time)) = some (true, true, 0) := by
  have h := play_spec demoScrubManager [0, 1] 0 (AnimatedCamera.init demoPoseA demoClipA)
    true rfl (by decide) rfl rfl
  refine ⟨h.1, h.2.2.1, h.2.2.2.1, ?_⟩
  rw [h.2.2.2.2.2.1]
  decide

/-- C3: when the finish callback of the last shot fires (`onShotFinished`
at the last index): with the loop flag off, playing stops, the completion
callback fires exactly once when stored, and no shot is started (the shots
are untouched); with the loop flag on, the index wraps to 0 and the first
shot is restarted at local time 0, advancing, with no completion
callback. -/
theorem onShotFinished_last_spec (s : ShotsManager) (seq : List Nat) (si0 : Nat)
    (sh0 : AnimatedCamera)
    (h2 : s.sequence = some seq)
    (hlast : s.currentShotIndex + 1 = (seq.length : Int))
    (hlen : 0 < seq.length)
    (hg : seq.get? 0 = some si0) (hs : s.shots.get? si0 = some sh0) :
    (s.loop = false →
       (ShotsManager.onShotFinished s).1.isPlaying = false ∧
       (ShotsManager.onShotFinished s).1.shots = s.shots ∧
       (ShotsManager.onShotFinished s).2 =
         (if s.hasOnShotsCompleted then [Event.completed] else [])) ∧
    (s.loop = true →
       (ShotsManager.onShotFinished s).1.currentShotIndex = 0 ∧
       (ShotsManager.onShotFinished s).1.shots.get? si0 = some (AnimatedCamera.play sh0) ∧
       (AnimatedCamera.play sh0).time = 0 ∧
       (AnimatedCamera.play sh0).isAdvancing = true ∧
       (ShotsManager.onShotFinished s).2 = []) := by
  obtain ⟨sh1, sq0, ci0, ip0, tc0, fs0, ph0, hc0, lp0⟩ := s
  dsimp only at h2 hlast hs ⊢
  subst h2
  unfold ShotsManager.onShotFinished
  dsimp only
  rw [if_pos (by omega)]
  constructor
  · intro hl
    subst hl
    simp
  · intro hl
    subst hl
    rw [if_pos rfl]
    unfold ShotsManager.playCurrentShot
    dsimp only
    rw [if_neg (by rintro (hx | hx) <;> omega)]
    simp only [Int.toNat_zero, hg]
    refine ⟨by trivial, ?_, by trivial, by trivial, by trivial⟩
    dsimp only
    rw [updateAt_get?, if_pos rfl, hs]
    rfl

/-- A two-shot state positioned at the last index mid-playback, loop on. -/
def demoLoopState : ShotsManager :=
  { shots := demoManager.shots, sequence := some [0, 1], currentShotIndex := 1,
    isPlaying := true, targetCamera := none, frameScripts := [], playheadTime := 5,
    hasOnShotsCompleted := true, loop := true }

/-- The same state with the loop flag off. -/
def demoEndState : ShotsManager := { demoLoopState with loop := false }

/-- Witness for C3: finishing the last shot with loop off stops playback
and fires the completion callback once; with loop on it wraps to shot 0,
restarted at time 0, without the completion callback. -/
theorem onShotFinished_last_spec_witness :
    (ShotsManager.onShotFinished demoEndState).1.isPlaying = false ∧
    (ShotsManager.onShotFinished demoEndState).2 = [Event.completed] ∧
    (ShotsManager.onShotFinished demoLoopState).1.currentShotIndex = 0 ∧
    ((ShotsManager.onShotFinished demoLoopState).1.shots.get? 0).map
      (fun a => (a.time, a.isAdvancing)) = some (0, true) ∧
    (ShotsManager.onShotFinished demoLoopState).2 = [] := by
  have hE := (onShotFinished_last_spec demoEndState [0, 1] 0
    (AnimatedCamera.init demoPoseA demoClipA) rfl (by decide) (by decide) rfl rfl).1 rfl
  have hL := (onShotFinished_last_spec demoLoopState [0, 1] 0
    (AnimatedCamera.init demoPoseA demoClipA) rfl (by decide) (by decide) rfl rfl).2 rfl
  refine ⟨hE.1, ?_, hL.1, ?_, hL.2.2.2.2⟩
  · rw [hE.2.2]
    rfl
  · rw [hL.2.1]
    rfl

/-! Preservation lemmas for the phases of `update` (used for the
fired-flag invariant). -/

theorem syncPhase_frameScripts (s : ShotsManager) (seq : List Nat) :
    (ShotsManager.syncPhase s seq).frameScripts = s.frameScripts := by
  unfold ShotsManager.syncPhase
  split
  · rfl
  · split
    · rfl
    · split <;> rfl

theorem syncPhase_playheadTime (s : ShotsManager) (seq : List Nat) :
    (ShotsManager.syncPhase s seq).playheadTime = s.playheadTime := by
  unfold ShotsManager.syncPhase
  split
  · rfl
  · split
    · rfl
    · split <;> rfl

theorem shotPhase_frameScripts (s : ShotsManager) (seq : List Nat) (delta : ℚ) :
    (ShotsManager.shotPhase s seq delta).1.frameScripts = s.frameScripts := by
  unfold ShotsManager.shotPhase
  split
  · split
    · rfl
    · split
      · rfl
      · dsimp only
        split
        · rw [onShotFinished_frameScripts]
        · rfl
  · rfl

theorem shotPhase_no_scriptFired (s : ShotsManager) (seq : List Nat) (delta : ℚ)
    (idx : Nat) : Event.scriptFired idx ∉ (ShotsManager.shotPhase s seq delta).2 := by
  unfold ShotsManager.shotPhase
  split
  · split
    · simp
    · split
      · simp
      · dsimp only
        split
        · exact onShotFinished_no_scriptFired _ idx
        · simp
  · simp

theorem scrub_frameScripts (s : ShotsManager) (t : ℚ) (cam : Pose) :
    (ShotsManager.scrub s t cam).1.frameScripts = s.frameScripts := by
  unfold ShotsManager.scrub
  split
  · rfl
  · split
    · rfl
    · dsimp only
      split
      · rfl
      · split
        · rfl
        · split
          · rfl
          · dsimp only
            split
            · rw [onShotFinished_frameScripts]
            · rfl

/-- C6: a scheduled callback fires at most once per `play` session: an
`update` never clears a set fired-flag and never re-fires that script; the
shot-advance chain (`onShotFinished`, which performs the loop-mode wrap to
shot 0) leaves the scripts untouched, as do `scrub` and `config` — only an
explicit `play` clears the flags. -/
theorem fired_flag_once_per_session (s : ShotsManager) (delta : ℚ) (idx : Nat) (sc : Script)
    (hg : s.frameScripts.get? idx = some sc) (hc : sc.called = true) :
    (s.update delta).1.frameScripts.get? idx = some sc ∧
    Event.scriptFired idx ∉ (s.update delta).2 ∧
    (∀ s2 : ShotsManager, (ShotsManager.onShotFinished s2).1.frameScripts = s2.frameScripts) ∧
    (∀ (s4 : ShotsManager) (t : ℚ) (cam : Pose),
      (ShotsManager.scrub s4 t cam).1.frameScripts = s4.frameScripts) ∧
    (∀ (s5 : ShotsManager) (names : List String),
      (ShotsManager.config s5 names).frameScripts = s5.frameScripts) := by
  refine ⟨?_, ?_, onShotFinished_frameScripts, scrub_frameScripts, fun _ _ => rfl⟩
  · unfold ShotsManager.update
    cases hs : s.sequence with
    | none => exact hg
    | some seq =>
      dsimp only
      split
      · exact hg
      · dsimp only
        unfold ShotsManager.scriptPhase
        dsimp only
        rw [fireScriptsAux_fst, List.get?_map, shotPhase_frameScripts]
        dsimp only
        rw [syncPhase_frameScripts, hg, Option.map_some']
        unfold fireMark
        rw [if_neg (by rw [hc]; rintro ⟨h1x, h2x⟩; cases h2x)]
  · unfold ShotsManager.update
    cases hs : s.sequence with
    | none => simp
    | some seq =>
      dsimp only
      split
      · simp
      · dsimp only
        intro hmem
        rw [List.mem_append] at hmem
        rcases hmem with hmem | hmem
        · exact shotPhase_no_scriptFired _ seq delta idx hmem
        · unfold ShotsManager.scriptPhase at hmem
          dsimp only at hmem
          rw [List.mem_map] at hmem
          obtain ⟨k, hk, hek⟩ := hmem
          have hki : k = idx := by
            injection hek
          subst hki
          obtain ⟨j, sc2, hg2, hkj, _, hcf⟩ := (fireScriptsAux_mem _ 0 k _).mp hk
          have hjk : j = k := by omega
          subst hjk
          rw [shotPhase_frameScripts] at hg2
          dsimp only at hg2
          rw [syncPhase_frameScripts, hg] at hg2
          cases hg2
          rw [hc] at hcf
          cases hcf

/-- A playing two-shot state whose only frame script has already fired. -/
def demoFiredState : ShotsManager :=
  { shots := demoManager.shots, sequence := some [0, 1], currentShotIndex := 0,
    isPlaying := true, targetCamera := none, frameScripts := [⟨1, true⟩],
    playheadTime := 2, hasOnShotsCompleted := false, loop := false }

/-- Witness for C6: updating past an already-fired script leaves its flag
set and does not fire it again. -/
theorem fired_flag_once_per_session_witness :
    (demoFiredState.update 1).1.frameScripts.get? 0 = some ⟨1, true⟩ ∧
    Event.scriptFired 0 ∉ (demoFiredState.update 1).2 := by
  have h := fired_flag_once_per_session demoFiredState 1 0 ⟨1, true⟩ rfl rfl
  exact ⟨h.1, h.2.1⟩

/-- C5: one `update(delta)` tick while playing at a valid index mirrors the
active shot's pre-advance camera pose onto the target camera (when one is
set), advances the playhead by `delta`, advances the active shot by
`delta`, and fires exactly those scheduled callbacks whose trigger time is
strictly below the new playhead and whose fired-flag was unset — in
registration order, each exactly once (the fired positions are strictly
increasing, hence duplicate-free). -/
theorem update_order_spec (s : ShotsManager) (delta : ℚ) (seq : List Nat) (n si : Nat)
    (sh : AnimatedCamera)
    (h1 : s.isPlaying = true) (h2 : s.sequence = some seq)
    (h3 : s.currentShotIndex = (n : Int)) (h4 : seq.get? n = some si)
    (h5 : s.shots.get? si = some sh) (h6 : (sh.mixerUpdate delta).2 = false) :
    (s.update delta).1.targetCamera = s.targetCamera.map (fun _ => sh.cameraPose) ∧
    (s.update delta).1.playheadTime = s.playheadTime + delta ∧
    (s.update delta).1.shots.get? si = some (sh.mixerUpdate delta).1 ∧
    (∀ k, Event.scriptFired k ∈ (s.update delta).2 ↔
       (∃ sc2, s.frameScripts.get? k = some sc2 ∧ sc2.time < s.playheadTime + delta ∧
         sc2.called = false)) ∧
    List.Pairwise (fun a b => a < b)
      ((s.update delta).2.filterMap (fun e =>
        match e with
        | Event.scriptFired k => some k
        | Event.completed => none)) := by
  rw [update_eq s delta seq n si sh h1 h2 h3 h4 h5 h6]
  refine ⟨rfl, rfl, ?_, ?_, ?_⟩
  · dsimp only
    rw [updateAt_get?, if_pos rfl, h5]
    rfl
  · intro k
    dsimp only
    rw [List.mem_map]
    constructor
    · rintro ⟨j, hj, hek⟩
      have hjk : j = k := by injection hek
      subst hjk
      obtain ⟨j0, sc2, hg0, hk0, hlt0, hc0⟩ := (fireScriptsAux_mem _ 0 j _).mp hj
      have hj0 : j0 = j := by omega
      subst hj0
      exact ⟨sc2, hg0, hlt0, hc0⟩
    · rintro ⟨sc2, hg0, hlt0, hc0⟩
      exact ⟨k, (fireScriptsAux_mem _ 0 k _).mpr ⟨k, sc2, hg0, by omega, hlt0, hc0⟩, rfl⟩
  · dsimp only
    rw [List.filterMap_map]
    have hcomp : (fireScriptsAux (s.playheadTime + delta) 0 s.frameScripts).2.filterMap
        ((fun e => match e with
          | Event.scriptFired k => some k
          | Event.completed => none) ∘ Event.scriptFired) =
        (fireScriptsAux (s.playheadTime + delta) 0 s.frameScripts).2 := by
      rw [show ((fun e => match e with
          | Event.scriptFired k => some k
          | Event.completed => none) ∘ Event.scriptFired) = some from rfl]
      exact List.filterMap_some _
    rw [hcomp]
    exact fireScriptsAux_pairwise _ 0 _

/-- A one-shot manager (10-second clip) with a frame script registered at
frame 48 over 24 fps (2 seconds), started with a completion callback. -/
def demoPlayManager : ShotsManager :=
  ShotsManager.play
    (((ShotsManager.init [("C", demoPoseA)] [demoClipC]).config ["C"]).addFrameScript 48 24)
    true

/-- Witness for C5: from playhead 0, a single `update(2.1)` advances the
playhead to 2.1 and fires the 2-second script exactly once. -/
theorem update_order_spec_witness :
    (demoPlayManager.update (21/10)).1.playheadTime = demoPlayManager.playheadTime + 21/10 ∧
    (Event.scriptFired 0 ∈ (demoPlayManager.update (21/10)).2 ↔
      (∃ sc2, demoPlayManager.frameScripts.get? 0 = some sc2 ∧
        sc2.time < demoPlayManager.playheadTime + 21/10 ∧ sc2.called = false)) ∧
    (demoPlayManager.update (21/10)).2 = [Event.scriptFired 0] := by
  have hmix : ((AnimatedCamera.play (AnimatedCamera.init demoPoseA demoClipC)).mixerUpdate
      (21/10)).2 = false := by
    norm_num [AnimatedCamera.mixerUpdate, AnimatedCamera.play, AnimatedCamera.init, demoClipC]
  have h := update_order_spec demoPlayManager (21/10) [0] 0 0
    (AnimatedCamera.play (AnimatedCamera.init demoPoseA demoClipC)) rfl rfl rfl rfl rfl hmix
  refine ⟨h.2.1, h.2.2.2.1 0, ?_⟩
  rw [update_eq demoPlayManager (21/10) [0] 0 0
    (AnimatedCamera.play (AnimatedCamera.init demoPoseA demoClipC)) rfl rfl rfl rfl rfl hmix]
  have hph : demoPlayManager.playheadTime = 0 := rfl
  dsimp only
  rw [hph]
  norm_num [fireScriptsAux]

/-- Preservation of the effective duration when one slot is overwritten by
a value of the same effective duration. -/
theorem effDurAt_updateAt_const (shots : List AnimatedCamera) (j i : Nat) (v : AnimatedCamera)
    (hv : ∀ a, shots.get? j = some a → v.getEffectiveDuration = a.getEffectiveDuration) :
    effDurAt (updateAt shots j (fun _ => v)) i = effDurAt shots i := by
  unfold effDurAt
  rw [updateAt_get?]
  by_cases he : i = j
  · subst he
    cases hgx : shots.get? i with
    | none => simp [hgx]
    | some a => simp [hgx, hv a hgx]
  · simp [he]

/-- A neutral pose for the assignable target camera. -/
def demoPoseT : Pose := ⟨0, 0, 0, 0, 0, 0, 1, 60⟩

/-- The two-shot manager playing the one-shot sequence `["A"]`, with a
target camera assigned. -/
def demoMidPlay : ShotsManager :=
  { ShotsManager.play (demoManager.config ["A"]) true with targetCamera := some demoPoseT }

/-- C2 counterexample: with shot "A" mid-playback, `config(["B"])` followed
by `update(1)` mirrors shot B's camera pose (B sits at the current index of
the NEW sequence) and leaves shot A's local time at 0, whereas the same
`update(1)` without the reconfiguration mirrors A's pose and advances A's
local time to 1 — so playback is not continued on the shots that were
playing before `config`. -/
theorem config_midplayback_counterexample :
    ((demoMidPlay.config ["B"]).update 1).1.targetCamera = some demoPoseB ∧
    (demoMidPlay.update 1).1.targetCamera = some demoPoseA ∧
    demoPoseA ≠ demoPoseB ∧
    (((demoMidPlay.config ["B"]).update 1).1.shots.get? 0).map (fun a => a.time) = some 0 ∧
    ((demoMidPlay.update 1).1.shots.get? 0).map (fun a => a.time) = some 1 := by
  have hmixA : ((AnimatedCamera.play (AnimatedCamera.init demoPoseA demoClipA)).mixerUpdate
      1).2 = false := by
    norm_num [AnimatedCamera.mixerUpdate, AnimatedCamera.play, AnimatedCamera.init, demoClipA]
  have hB := update_eq (demoMidPlay.config ["B"]) 1 [1] 0 1
    (AnimatedCamera.init demoPoseB demoClipB) rfl rfl rfl rfl rfl rfl
  have hA := update_eq demoMidPlay 1 [0] 0 0
    (AnimatedCamera.play (AnimatedCamera.init demoPoseA demoClipA)) rfl rfl rfl rfl rfl hmixA
  have hs0 : demoMidPlay.shots.get? 0 =
      some (AnimatedCamera.play (AnimatedCamera.init demoPoseA demoClipA)) := rfl
  refine ⟨?_, ?_, ?_, ?_, ?_⟩
  · rw [hB]
    rfl
  · rw [hA]
    rfl
  · intro hx
    have hpx := congrArg Pose.px hx
    norm_num [demoPoseA, demoPoseB] at hpx
  · rw [hB]
    dsimp only
    rw [updateAt_get?, if_neg (by omega)]
    rfl
  · rw [hA]
    dsimp only
    rw [updateAt_get?, if_pos rfl, hs0]
    norm_num [AnimatedCamera.mixerUpdate, AnimatedCamera.play, AnimatedCamera.init, demoClipA]

/-- C2 amended: `config` replaces the stored sequence immediately and does
affect a playback in progress: a subsequent `update(delta)` indexes the NEW
sequence at the unchanged current index — it mirrors that shot's camera
pose onto the target camera and advances that shot's mixer, and every other
binding (in particular a previously playing shot at a different slot) is
left untouched. -/
theorem config_affects_midplayback (s : ShotsManager) (names : List String) (delta : ℚ)
    (n si : Nat) (sh : AnimatedCamera)
    (h1 : s.isPlaying = true)
    (h3 : s.currentShotIndex = (n : Int))
    (h4 : (configSeq s.shots names).get? n = some si)
    (h5 : s.shots.get? si = some sh)
    (h6 : (sh.mixerUpdate delta).2 = false) :
    ((s.config names).update delta).1.targetCamera =
      s.targetCamera.map (fun _ => sh.cameraPose) ∧
    ((s.config names).update delta).1.shots.get? si = some (sh.mixerUpdate delta).1 ∧
    (∀ j, j ≠ si → ((s.config names).update delta).1.shots.get? j = s.shots.get? j) := by
  have h := update_eq (s.config names) delta (configSeq s.shots names) n si sh h1 rfl h3 h4
    h5 h6
  have h5x : (s.config names).shots.get? si = some sh := h5
  rw [h]
  refine ⟨rfl, ?_, ?_⟩
  · dsimp only
    rw [updateAt_get?, if_pos rfl, h5x]
    rfl
  · intro j hj
    dsimp only
    rw [updateAt_get?, if_neg hj]
    rfl

/-- Witness for C2 (amended): reconfiguring to `["B"]` mid-playback of
`["A"]` makes the next update mirror and advance shot B's binding while
leaving shot A's binding unchanged. -/
theorem config_affects_midplayback_witness :
    ((demoMidPlay.config ["B"]).update 1).1.targetCamera =
      demoMidPlay.targetCamera.map
        (fun _ => (AnimatedCamera.init demoPoseB demoClipB).cameraPose) ∧
    ((demoMidPlay.config ["B"]).update 1).1.shots.get? 0 = demoMidPlay.shots.get? 0 := by
  have h := config_affects_midplayback demoMidPlay ["B"] 1 0 1
    (AnimatedCamera.init demoPoseB demoClipB) rfl rfl rfl rfl rfl
  exact ⟨h.1, h.2.2 0 (by omega)⟩

/-- C8: scrubbing is idempotent and free of playback side effects: two
successive `scrub(t, ·)` calls produce the identical camera pose, the
virtual playhead is never changed, the sequencer is left not playing with
no binding advancing, and no finish or completion callback is ever
invoked. -/
theorem scrub_idempotent (s : ShotsManager) (seq : List Nat) (t : ℚ) (cam cam2 : Pose)
    (h2 : s.sequence = some seq) (hne : seq ≠ [])
    (hwf : ∀ i ∈ seq, i < s.shots.length) :
    ((s.scrub t cam).1.scrub t cam2).2.1 = (s.scrub t cam).2.1 ∧
    (s.scrub t cam).1.playheadTime = s.playheadTime ∧
    ((s.scrub t cam).1.scrub t cam2).1.playheadTime = s.playheadTime ∧
    (s.scrub t cam).1.isPlaying = false ∧
    ((s.scrub t cam).1.scrub t cam2).1.isPlaying = false ∧
    (s.scrub t cam).2.2 = [] ∧
    ((s.scrub t cam).1.scrub t cam2).2.2 = [] ∧
    (∀ i ∈ seq, ∀ a, (s.scrub t cam).1.shots.get? i = some a →
      a.isAdvancing = false) := by
  obtain ⟨pos, lt, hr1, hposlt⟩ := scrubResolve_some (stopSeq s.shots seq) seq t hne
  obtain ⟨si, hgp⟩ := get?_some_of_lt seq pos hposlt
  have hsimem : si ∈ seq := List.get?_mem hgp
  obtain ⟨a0, ha0⟩ := get?_some_of_lt s.shots si (hwf si hsimem)
  have hsh1 : (stopSeq s.shots seq).get? si = some a0.stop := by
    rw [stopSeq_get?, if_pos hsimem, ha0]
    rfl
  have hA := scrub_eq s seq t cam pos si lt a0.stop h2 hne hr1 hgp hsh1
  have hcongr : ∀ i ∈ seq,
      effDurAt (stopSeq (updateAt (stopSeq s.shots seq) si
        (fun _ => (a0.stop.scrubTo lt).1)) seq) i =
      effDurAt (stopSeq s.shots seq) i := by
    intro i _
    rw [effDurAt_stopSeq]
    exact effDurAt_updateAt_const (stopSeq s.shots seq) si i (a0.stop.scrubTo lt).1
      (fun a ha => by
        rw [hsh1] at ha
        cases ha
        exact scrubTo_effDur a0.stop lt)
  have hr2 : scrubResolve (stopSeq (updateAt (stopSeq s.shots seq) si
      (fun _ => (a0.stop.scrubTo lt).1)) seq) seq t = some (pos, lt) := by
    rw [scrubResolve_congr (stopSeq s.shots seq) _ seq t hcongr]
    exact hr1
  have hsh2 : (stopSeq (updateAt (stopSeq s.shots seq) si
      (fun _ => (a0.stop.scrubTo lt).1)) seq).get? si =
      some ((a0.stop.scrubTo lt).1).stop := by
    rw [stopSeq_get?, if_pos hsimem, updateAt_get?, if_pos rfl, hsh1]
    rfl
  have hB := scrub_eq
    { s with isPlaying := false,
             shots := updateAt (stopSeq s.shots seq) si (fun _ => (a0.stop.scrubTo lt).1) }
    seq t cam2 pos si lt ((a0.stop.scrubTo lt).1).stop h2 hne hr2 hgp hsh2
  rw [hA]
  rw [hB]
  refine ⟨?_, rfl, rfl, rfl, rfl, rfl, rfl, ?_⟩
  · rfl
  · intro i hi a hga
    dsimp only at hga
    rw [updateAt_get?] at hga
    by_cases hisi : i = si
    · subst hisi
      rw [if_pos rfl, hsh1] at hga
      cases hga
      rfl
    · rw [if_neg hisi, stopSeq_get?, if_pos hi] at hga
      obtain ⟨b, hb, rfl⟩ := Option.map_eq_some'.mp hga
      rfl

/-- Witness for C8: double-scrubbing the two-shot sequence at 2.5 seconds
gives the same pose twice, leaves the playhead untouched, playback off, and
fires nothing. -/
theorem scrub_idempotent_witness :
    ((demoScrubManager.scrub (5/2) demoPoseT).1.scrub (5/2) demoPoseT).2.1 =
      (demoScrubManager.scrub (5/2) demoPoseT).2.1 ∧
    (demoScrubManager.scrub (5/2) demoPoseT).1.playheadTime =
      demoScrubManager.playheadTime ∧
    (demoScrubManager.scrub (5/2) demoPoseT).1.isPlaying = false ∧
    (demoScrubManager.scrub (5/2) demoPoseT).2.2 = [] := by
  have h := scrub_idempotent demoScrubManager [0, 1] (5/2) demoPoseT demoPoseT rfl
    (by decide) (by decide)
  exact ⟨h.1, h.2.1, h.2.2.2.1, h.2.2.2.2.2.1⟩
